import Mathlib

/-!
Verification development for the GSV update-semantics engine (the C++ library
of r-caso/GSV, version 2.0 layout: gsv-core, gsv-evaluator, gsv-relations).

The definitions below are a shallow embedding of the C++ sources:

- `ReferentSystem`, `Possibility` and their operations embed
  `GSV/gsv-core/src/referent_system.cpp` and `GSV/gsv-core/src/possibility.cpp`.
- `create`, `update`, `extendsS`, `isDescendantOf`, `subsistsIn`, `subsistsInS`
  embed `GSV/src/semantics/information_state.cpp` (the same functions the
  modular build uses; `InformationState` is `std::set<Possibility>` ordered by
  the world-only `operator<` of `possibility.cpp`, modelled here as a list
  that is kept sorted by world with at most one element per world, together
  with `sinsert` / `scontains` reproducing the comparator's behaviour).
- `evaluate` embeds the `Evaluator` visitor of the gsv-evaluator library
  (the `std::expected`-returning version whose `UnaryNode` case sits at lines
  91-131 of its translation unit).
- `consistent`, `allows`, `supports`, `isSupportedBy`, `generateSubStates`,
  `consistentModel`, `coherent`, `similarP`, `similarS`, `equivalent` embed
  `GSV/gsv-relations/src/semantic_relations.cpp` (logging calls are no-ops
  through the null logger and are dropped).
- `format` embeds the repository formatter `GSV/src/utility/formatter.cpp`
  (the glyph-rendering printer standing in for the external
  QMLExpression formatter, which the design treats as an opaque
  formula-to-string function); `explain_failure` embeds
  `GSV/gsv-utils/src/error_reporting.cpp`.

C++ `std::unordered_map` values are modelled as association lists with
overwriting insertion (`ainsert`), so keys are unique in every map the code
can build; `std::expected<T, std::string>` is `Except String T`; exceptions
that the source converts to `std::expected` at the same function boundary are
modelled by returning the corresponding `.error` directly.
-/

namespace GSV

/-- Lookup in an association list; models `map.at` / `map.contains` access on
`std::unordered_map` (keys are unique in every reachable map). -/
def alookup {α β : Type} [DecidableEq α] : List (α × β) → α → Option β
  | [], _ => none
  | kv :: m, k => if kv.1 = k then some kv.2 else alookup m k

/-- Overwriting insertion; models `map[k] = v` on `std::unordered_map`. -/
def ainsert {α β : Type} [DecidableEq α] (k : α) (v : β) (m : List (α × β)) : List (α × β) :=
  (k, v) :: m.filter (fun kv => decide (kv.1 ≠ k))

instance {ε α : Type} [DecidableEq ε] [DecidableEq α] : DecidableEq (Except ε α) := fun a b =>
  match a, b with
  | .ok x, .ok y =>
    if h : x = y then .isTrue (by rw [h]) else .isFalse (by intro hc; cases hc; exact h rfl)
  | .error x, .error y =>
    if h : x = y then .isTrue (by rw [h]) else .isFalse (by intro hc; cases hc; exact h rfl)
  | .ok _, .error _ => .isFalse (by intro hc; cases hc)
  | .error _, .ok _ => .isFalse (by intro hc; cases hc)

/-- `ReferentSystem` of gsv-core: a peg counter and the variable-to-peg map. -/
structure ReferentSystem where
  pegs : Nat
  variablePegAssociation : List (String × Nat)
deriving DecidableEq

/-- `ReferentSystem::value` (gsv-core/src/referent_system.cpp): peg of a
variable, or the error the source formats for an absent variable. -/
def ReferentSystem.value (r : ReferentSystem) (v : String) : Except String Nat :=
  match alookup r.variablePegAssociation v with
  | none => .error ("Referent system does not contain variable " ++ v)
  | some peg => .ok peg

/-- `domain` (gsv-core/src/referent_system.cpp): the variables of a referent
system. The source returns a `std::set`; every use compares it as a set or
iterates it with an order-insensitive predicate, so the key list suffices. -/
def domainR (r : ReferentSystem) : List String :=
  r.variablePegAssociation.map Prod.fst

/-- `Possibility` of gsv-core: a shared referent system, a peg-to-individual
assignment, and a world index. Sharing is by content here (see `update`). -/
structure Possibility where
  referentSystem : ReferentSystem
  assignment : List (Nat × Nat)
  world : Nat
deriving DecidableEq

/-- `Possibility::update` (gsv-core/src/possibility.cpp):
`variablePegAssociation[variable] = ++pegs; assignment[pegs] = individual`.
The pre-increment makes the fresh peg `pegs + 1`. -/
def Possibility.update (p : Possibility) (v : String) (individual : Nat) : Possibility :=
  let fresh := p.referentSystem.pegs + 1
  { referentSystem :=
      { pegs := fresh
        variablePegAssociation := ainsert v fresh p.referentSystem.variablePegAssociation }
    assignment := ainsert fresh individual p.assignment
    world := p.world }

/-- `extends(const Possibility&, const Possibility&)` (gsv-core): same world,
and `all_of` over the entries of p2's assignment, each peg being either absent
from p1 or mapped to the same individual (`p2.assignment.at(peg)` is the
entry's own value, keys being unique). `extends` is a Lean keyword, hence
the `P` suffix. -/
def extendsP (p2 p1 : Possibility) : Bool :=
  decide (p1.world = p2.world) &&
    p2.assignment.all (fun kv =>
      match alookup p1.assignment kv.1 with
      | none => true
      | some i => decide (i = kv.2))

/-- The source's variableDenotation (gsv-core/src/possibility.cpp),
shortened here to `variableDenot`: peg via the referent system, then the
assignment. The source indexes the assignment with
`map::at`, documented as never failing under the code's invariant; the
`none` case mirrors the exception that `at` would raise there. -/
def variableDenot (v : String) (p : Possibility) : Except String Nat :=
  match p.referentSystem.value v with
  | .error e => .error e
  | .ok peg =>
    match alookup p.assignment peg with
    | some i => .ok i
    | none => .error ("Assignment does not contain peg " ++ toString peg)

/-- `InformationState` is `std::set<Possibility>` whose `operator<` compares
worlds only. Modelled as the set's iteration sequence: a list sorted by
world, holding at most one possibility per world. -/
abbrev InformationState := List Possibility

/-- Membership of `std::set<Possibility>` under the world-only `operator<`:
`contains(p)` holds iff some element has the same world as `p`. -/
def scontains (s : InformationState) (p : Possibility) : Bool :=
  s.any (fun q => decide (q.world = p.world))

/-- Insertion into `std::set<Possibility>` under the world-only `operator<`:
a possibility whose world is already present is not inserted. -/
def sinsert (p : Possibility) : InformationState → InformationState
  | [] => [p]
  | q :: s =>
    if p.world < q.world then p :: q :: s
    else if q.world < p.world then q :: sinsert p s
    else q :: s

/-- The empty referent system a fresh `std::make_shared<ReferentSystem>()`
produces. -/
def emptyRS : ReferentSystem := { pegs := 0, variablePegAssociation := [] }

/-- `Model` stands for the `IModel` interface: cardinalities plus
term/predicate interpretation, the latter two failing explicitly. -/
structure Model where
  worldCardinality : Nat
  domainCardinality : Nat
  termInterpretation : String → Nat → Except String Nat
  predicateInterpretation : String → Nat → Except String (List (List Nat))

/-- `create(model)` (information_state.cpp): one possibility per world, all
sharing one empty referent system, worlds ascending. -/
def create (M : Model) : InformationState :=
  (List.range M.worldCardinality).map
    (fun w => { referentSystem := emptyRS, assignment := [], world := w })

/-- Accumulation of the shared `r_star` bindings: the source copies every
binding of the current possibility's referent system into `r_star`,
overwriting earlier entries. -/
def mergeBindings (base add : List (String × Nat)) : List (String × Nat) :=
  add.foldl (fun b kv => ainsert kv.1 kv.2 b) base

/-- `update(state, variable, individual)` (information_state.cpp). Per input
possibility the source resets `r_star->pegs` to the possibility's peg count,
copies its bindings into `r_star`, and calls `Possibility::update` on the
copy; every output possibility aliases the single `r_star`, so all of them
carry its final content, while each keeps the assignment entry made with the
peg value of its own iteration. Output possibilities are inserted into a
fresh `std::set`. `updateStep` is one iteration of that loop. -/
def updateStep (v : String) (individual : Nat) (acc : ReferentSystem × List Possibility)
    (p : Possibility) : ReferentSystem × List Possibility :=
  let pstar := Possibility.update
    { referentSystem :=
        { pegs := p.referentSystem.pegs
          variablePegAssociation :=
            mergeBindings acc.1.variablePegAssociation p.referentSystem.variablePegAssociation }
      assignment := p.assignment
      world := p.world } v individual
  (pstar.referentSystem, acc.2 ++ [pstar])

/-- The body of `update(state, variable, individual)`: fold `updateStep`
over the input possibilities, then insert every collected possibility —
retagged with the final shared `r_star` — into a fresh set. -/
def update (input_state : InformationState) (v : String) (individual : Nat) : InformationState :=
  let built := input_state.foldl (updateStep v individual) (emptyRS, [])
  built.2.foldl (fun out q => sinsert { q with referentSystem := built.1 } out) []

/-- `extends` on information states: every possibility of s2 extends some
possibility of s1. -/
def extendsS (s2 s1 : InformationState) : Bool :=
  s2.all (fun p2 => s1.any (fun p1 => extendsP p2 p1))

/-- `isDescendantOf(p2, p1, s)`: p2 is in s (by the set's world-keyed
membership) and extends p1. -/
def isDescendantOf (p2 p1 : Possibility) (s : InformationState) : Bool :=
  scontains s p2 && extendsP p2 p1

/-- `subsistsIn(p, s)`: some member of s is a descendant of p. -/
def subsistsIn (p : Possibility) (s : InformationState) : Bool :=
  s.any (fun p1 => isDescendantOf p1 p s)

/-- `subsistsIn(s1, s2)`: every possibility of s1 subsists in s2. -/
def subsistsInS (s1 s2 : InformationState) : Bool :=
  s1.all (fun p => subsistsIn p s2)

/-- The `Operator` enumeration of the expression AST. One enumeration serves
unary and binary nodes, so a node can carry an operator of the wrong arity;
the evaluator rejects those with its "Invalid ..." branches. -/
inductive Operator where
  | NEGATION
  | CONJUNCTION
  | DISJUNCTION
  | CONDITIONAL
  | EPISTEMIC_NECESSITY
  | EPISTEMIC_POSSIBILITY
deriving DecidableEq

/-- The `Quantifier` enumeration. -/
inductive Quantifier where
  | EXISTENTIAL
  | UNIVERSAL
deriving DecidableEq

/-- `Term::Type`. -/
inductive TermType where
  | CONSTANT
  | VARIABLE
deriving DecidableEq

/-- `Term`: a tagged literal. -/
structure Term where
  type : TermType
  literal : String
deriving DecidableEq

/-- The expression AST: the five node kinds of the `Expression` variant. -/
inductive Expression where
  | unary (op : Operator) (scope : Expression)
  | binary (op : Operator) (lhs rhs : Expression)
  | quantification (quantifier : Quantifier) (v : Term) (scope : Expression)
  | identity (lhs rhs : Term)
  | predication (predicate : String) (arguments : List Term)
deriving DecidableEq

/-- `negate(expr)`: wrap in a NEGATION node (evaluator helper). -/
def negate (e : Expression) : Expression := .unary .NEGATION e

/-- The repository formatter (`GSV/src/utility/formatter.cpp`). Its unary
case contains a `typeid` comparison against `shared_ptr<IdentityNode>` that
is always false (`typeid` of a non-polymorphic `std::variant` member is the
variant type), so the glyph-prefix branch is the one that runs. The
predication case appends "<literal>, " per argument and then drops the final
two characters, also when the argument list is empty. -/
def format : Expression → String
  | .unary op scope =>
    (match op with
     | .NEGATION => "¬"
     | .EPISTEMIC_NECESSITY => "□"
     | _ => "⋄") ++ format scope
  | .binary op lhs rhs =>
    "(" ++ format lhs ++
      (match op with
       | .CONJUNCTION => " ⋀ "
       | .DISJUNCTION => " ⋁ "
       | _ => " → ") ++ format rhs ++ ")"
  | .quantification q v scope =>
    (match q with
     | .EXISTENTIAL => "∃"
     | .UNIVERSAL => "∀") ++ v.literal ++ " " ++ format scope
  | .identity lhs rhs => lhs.literal ++ " = " ++ rhs.literal
  | .predication p arguments =>
    (p ++ "(" ++ String.join (arguments.map (fun a => a.literal ++ ", "))).dropRight 2 ++ ")"

/-- `explain_failure` (gsv-utils/src/error_reporting.cpp). -/
def explain_failure (formula cause : String) : String :=
  "In evaluating formula " ++ formula ++ ":\n" ++ cause

/-- Term resolution inside identity and predication nodes: a variable
through the source's variableDenotation (`variableDenot` here), a constant
through `termInterpretation` at the possibility's world (the inline
conditional of the source). -/
def termDenot (M : Model) (t : Term) (p : Possibility) : Except String Nat :=
  match t.type with
  | .VARIABLE => variableDenot t.literal p
  | .CONSTANT => M.termInterpretation t.literal p.world

/-- The evaluator's `filter` helper combined with the source's exception
flow: the predicate can fail, and the first failure (in set iteration
order) aborts the whole filtering. -/
def filterE (f : Possibility → Except String Bool) : List Possibility → Except String (List Possibility)
  | [] => .ok []
  | p :: s =>
    match f p with
    | .error e => .error e
    | .ok b =>
      match filterE f s with
      | .error e => .error e
      | .ok rest => .ok (if b then p :: rest else rest)

/-- Sequential effectful map; models the evaluator's loops over the domain,
where the first failing branch aborts the loop. -/
def mapExcept {α β : Type} (f : α → Except String β) : List α → Except String (List β)
  | [] => .ok []
  | a :: as =>
    match f a with
    | .error e => .error e
    | .ok b =>
      match mapExcept f as with
      | .error e => .error e
      | .ok bs => .ok (b :: bs)

/-- `assigns_same_denotation` of the `IdentityNode` case: resolve both sides
(the left side's failure surfaces first), keep iff equal. -/
def assignsSameDenot (M : Model) (lhs rhs : Term) (p : Possibility) : Except String Bool :=
  match termDenot M lhs p with
  | .error e => .error e
  | .ok l =>
    match termDenot M rhs p with
    | .error e => .error e
    | .ok r => .ok (decide (l = r))

/-- `tuple_in_extension` of the `PredicationNode` case: resolve the argument
tuple left to right, then membership in the predicate's extension. -/
def tupleInExtension (M : Model) (predicate : String) (arguments : List Term) (p : Possibility) :
    Except String Bool :=
  match mapExcept (fun a => termDenot M a p) arguments with
  | .error e => .error e
  | .ok tuple =>
    match M.predicateInterpretation predicate p.world with
    | .error e => .error e
    | .ok ext => .ok (ext.contains tuple)

/-- The `Evaluator` visitor (`std::expected` version of gsv-evaluator).

Faithfulness notes, case by case against the source:
- UnaryNode: the prejacent is evaluated first and its failure wrapped with
  the node's printed form; then the operator dispatch (possibility test,
  necessity test, negation filter, invalid otherwise).
- BinaryNode: conjunction evaluates the left side (failure wrapped), then
  returns the right side's update of that result directly — a right-side
  failure is NOT wrapped with the conjunction's formula. Every other binary
  operator first computes the hypothetical left update (failure wrapped).
  Disjunction then evaluates `negate(lhs)` on the input state — written out
  here as the NEGATION case's body, see `evaluate_negate` — wraps its
  failure, evaluates the right side on that result (failure wrapped), and
  keeps the input possibilities the set-membership test finds in either
  hypothetical update. The conditional evaluates the consequent on the
  antecedent's update and keeps possibilities that either do not subsist in
  the antecedent update or all of whose descendants there subsist in the
  consequent update.
- QuantificationNode: per domain individual the scope is evaluated on the
  updated state (failure wrapped, first failing individual aborts); the
  existential inserts every branch possibility into one output set, the
  universal keeps input possibilities subsisting in every branch update.
  The source's "Invalid quantifier" branch is unreachable with the
  two-valued `Quantifier` enumeration.
- Identity/Predication: filter with the corresponding predicate, the first
  per-possibility failure wrapped with the node's printed form. -/
def evaluate (M : Model) : Expression → InformationState → Except String InformationState
  | .unary op scope, input_state =>
    match evaluate M scope input_state with
    | .error e => .error (explain_failure (format (.unary op scope)) e)
    | .ok prejacent =>
      match op with
      | .EPISTEMIC_POSSIBILITY => .ok (if prejacent.isEmpty then [] else input_state)
      | .EPISTEMIC_NECESSITY => .ok (if subsistsInS input_state prejacent then input_state else [])
      | .NEGATION => .ok (input_state.filter (fun p => !subsistsIn p prejacent))
      | _ => .error (explain_failure (format (.unary op scope)) "Invalid unary operator")
  | .binary op lhs rhs, input_state =>
    match op with
    | .CONJUNCTION =>
      match evaluate M lhs input_state with
      | .error e => .error (explain_failure (format (.binary .CONJUNCTION lhs rhs)) e)
      | .ok lhs_update => evaluate M rhs lhs_update
    | op1 =>
      match evaluate M lhs input_state with
      | .error e => .error (explain_failure (format (.binary op1 lhs rhs)) e)
      | .ok hypothetical_lhs_update =>
        match op1 with
        | .DISJUNCTION =>
          match
            (match evaluate M lhs input_state with
             | .error e => .error (explain_failure (format (negate lhs)) e)
             | .ok u => .ok (input_state.filter (fun p => !subsistsIn p u))
             : Except String InformationState) with
          | .error e => .error (explain_failure (format (.binary op1 lhs rhs)) e)
          | .ok negated_lhs_update =>
            match evaluate M rhs negated_lhs_update with
            | .error e => .error (explain_failure (format (.binary op1 lhs rhs)) e)
            | .ok hypothetical_rhs_update =>
              .ok (input_state.filter (fun p =>
                scontains hypothetical_lhs_update p || scontains hypothetical_rhs_update p))
        | .CONDITIONAL =>
          match evaluate M rhs hypothetical_lhs_update with
          | .error e => .error (explain_failure (format (.binary op1 lhs rhs)) e)
          | .ok hypothetical_consequent_update =>
            .ok (input_state.filter (fun p =>
              !subsistsIn p hypothetical_lhs_update ||
                hypothetical_lhs_update.all (fun p_star =>
                  !isDescendantOf p_star p hypothetical_lhs_update ||
                    subsistsIn p_star hypothetical_consequent_update)))
        | _ => .error (explain_failure (format (.binary op1 lhs rhs)) "Invalid operator for binary formula")
  | .quantification q v scope, input_state =>
    match q with
    | .EXISTENTIAL =>
      match mapExcept
          (fun i =>
            match evaluate M scope (update input_state v.literal i) with
            | .error e =>
              .error (explain_failure (format (.quantification .EXISTENTIAL v scope)) e)
            | .ok u => .ok u)
          (List.range M.domainCardinality) with
      | .error e => .error e
      | .ok all_state_variants =>
        .ok (all_state_variants.foldl (fun out sv => sv.foldl (fun o p => sinsert p o) out) [])
    | .UNIVERSAL =>
      match mapExcept
          (fun d =>
            match evaluate M scope (update input_state v.literal d) with
            | .error e =>
              .error (explain_failure (format (.quantification .UNIVERSAL v scope)) e)
            | .ok u => .ok u)
          (List.range M.domainCardinality) with
      | .error e => .error e
      | .ok all_hypothetical_updates =>
        .ok (input_state.filter (fun p =>
          all_hypothetical_updates.all (fun u => subsistsIn p u)))
  | .identity lhs rhs, input_state =>
    match filterE (assignsSameDenot M lhs rhs) input_state with
    | .error e => .error (explain_failure (format (.identity lhs rhs)) e)
    | .ok out => .ok out
  | .predication p arguments, input_state =>
    match filterE (tupleInExtension M p arguments) input_state with
    | .error e => .error (explain_failure (format (.predication p arguments)) e)
    | .ok out => .ok out

/-- The disjunction case of the source evaluates `negate(expr->lhs)` through
a recursive visit; the inline expression used in `evaluate`'s DISJUNCTION
branch is exactly that visit's result. -/
theorem evaluate_negate (M : Model) (e : Expression) (s : InformationState) :
    evaluate M (negate e) s =
      (match evaluate M e s with
       | .error err => .error (explain_failure (format (negate e)) err)
       | .ok u => .ok (s.filter (fun p => !subsistsIn p u))) := by
  cases h : evaluate M e s <;> simp [negate, evaluate, h]

/-- `consistent(expr, state, model)` (gsv-relations): nonemptiness of the
update; an evaluation failure is re-wrapped with the formula's printed form
and returned as the error result. -/
def consistent (expr : Expression) (state : InformationState) (M : Model) : Except String Bool :=
  match evaluate M expr state with
  | .error e => .error (explain_failure (format expr) e)
  | .ok u => .ok (!u.isEmpty)

/-- `allows(state, expr, model)`: alias for `consistent`. -/
def allows (state : InformationState) (expr : Expression) (M : Model) : Except String Bool :=
  consistent expr state M

/-- `supports(state, expr, model)` (gsv-relations): the input state subsists
in its own update; an evaluation failure is re-wrapped and returned as the
error result. -/
def supports (state : InformationState) (expr : Expression) (M : Model) : Except String Bool :=
  match evaluate M expr state with
  | .error e => .error (explain_failure (format expr) e)
  | .ok u => .ok (subsistsInS state u)

/-- `isSupportedBy(expr, state, model)`: alias for `supports`. -/
def isSupportedBy (expr : Expression) (state : InformationState) (M : Model) : Except String Bool :=
  supports state expr M

/-- The backtracking enumeration inside `generateSubStates`: the size-k
subsets of worlds `start..n`, in the source's depth-first (lexicographic)
order. -/
def combos (start n k : Nat) : List (List Nat) :=
  match k with
  | 0 => [[]]
  | Nat.succ k1 =>
    ((List.range (n + 1)).drop start).flatMap
      (fun i => (combos (i + 1) n k1).map (fun c => i :: c))

/-- `generateSubStates(n, k)` (gsv-relations): every k-element set of
ignorant possibilities over worlds 0..n, each possibility with its own fresh
empty referent system; `[∅]` for k = 0, `[]` for k > n + 1. -/
def generateSubStates (n k : Nat) : List InformationState :=
  if k = 0 then [[]]
  else if k > n + 1 then []
  else (combos 0 n k).map (fun ws =>
    ws.map (fun w => { referentSystem := emptyRS, assignment := [], world := w }))

/-- `std::ranges::any_of` with a predicate that can throw: the first failure
aborts, the first true short-circuits. -/
def anyThrow {α : Type} (f : α → Except String Bool) : List α → Except String Bool
  | [] => .ok false
  | a :: rest =>
    match f a with
    | .error e => .error e
    | .ok true => .ok true
    | .ok false => anyThrow f rest

/-- `std::ranges::all_of` with a predicate that can throw. -/
def allThrow {α : Type} (f : α → Except String Bool) : List α → Except String Bool
  | [] => .ok true
  | a :: rest =>
    match f a with
    | .error e => .error e
    | .ok false => .ok false
    | .ok true => allThrow f rest

/-- The cardinality loop of `consistent(expr, model)`: for each k the
sub-states of size k are searched for one consistent with the formula; a
thrown evaluation error is caught and returned, a cardinality without a
consistent sub-state returns false. -/
def consistentModelLoop (expr : Expression) (M : Model) : List Nat → Except String Bool
  | [] => .ok true
  | i :: rest =>
    match anyThrow (fun state => consistent expr state M)
        (generateSubStates (M.worldCardinality - 1) i) with
    | .error e => .error e
    | .ok false => .ok false
    | .ok true => consistentModelLoop expr M rest

/-- `consistent(expr, model)` (gsv-relations), the model-level overload:
iterate k over `[0, worldCardinality)`. -/
def consistentModel (expr : Expression) (M : Model) : Except String Bool :=
  consistentModelLoop expr M (List.range M.worldCardinality)

/-- The cardinality loop of `coherent(expr, model)`: the predicate computes
`supports` first (errors propagate) and requires the sub-state nonempty. -/
def coherentLoop (expr : Expression) (M : Model) : List Nat → Except String Bool
  | [] => .ok true
  | i :: rest =>
    match anyThrow
        (fun state =>
          match supports state expr M with
          | .error e => .error e
          | .ok b => .ok (!state.isEmpty && b))
        (generateSubStates (M.worldCardinality - 1) i) with
    | .error e => .error e
    | .ok false => .ok false
    | .ok true => coherentLoop expr M rest

/-- `coherent(expr, model)` (gsv-relations). -/
def coherent (expr : Expression) (M : Model) : Except String Bool :=
  coherentLoop expr M (List.range M.worldCardinality)

/-- Set equality of two `std::set<std::string_view>` values, as element
containment both ways. -/
def listSetEq (l1 l2 : List String) : Bool :=
  l1.all (fun x => l2.contains x) && l2.all (fun x => l1.contains x)

/-- `similar` on possibilities (gsv-relations, anonymous namespace): same
world, equal referent-system domains, and equal denotation for every
variable of the domain; a denotation failure propagates as an error. -/
def similarP (p1 p2 : Possibility) : Except String Bool :=
  if p1.world = p2.world then
    if listSetEq (domainR p1.referentSystem) (domainR p2.referentSystem) then
      allThrow
        (fun v =>
          match variableDenot v p1 with
          | .error e => .error e
          | .ok d1 =>
            match variableDenot v p2 with
            | .error e => .error e
            | .ok d2 => .ok (decide (d1 = d2)))
        (domainR p1.referentSystem)
    else .ok false
  else .ok false

/-- `similar` on information states: every possibility of each side has a
similar counterpart on the other; errors propagate, conjunction
short-circuits. -/
def similarS (s1 s2 : InformationState) : Except String Bool :=
  match allThrow (fun p => anyThrow (fun q => similarP p q) s2) s1 with
  | .error e => .error e
  | .ok false => .ok false
  | .ok true => allThrow (fun p => anyThrow (fun q => similarP p q) s1) s2

/-- The `dissimilar_updates` lambda of `equivalent`: evaluate both formulas
on the sub-state (failures propagate), then compute
`!similar(update1, update2)`. `similar` returns a `std::expected<bool, ...>`
and the contextual `!` tests `has_value()`, not the contained bool, so the
result is true exactly when the similarity computation itself failed. -/
def dissimilar_updates (expr1 expr2 : Expression) (M : Model) (state : InformationState) :
    Except String Bool :=
  match evaluate M expr1 state with
  | .error e => .error e
  | .ok u1 =>
    match evaluate M expr2 state with
    | .error e => .error e
    | .ok u2 =>
      .ok (match similarS u1 u2 with
           | .error _ => true
           | .ok _ => false)

/-- The cardinality loop of `equivalent`. -/
def equivalentLoop (expr1 expr2 : Expression) (M : Model) : List Nat → Except String Bool
  | [] => .ok true
  | i :: rest =>
    match anyThrow (dissimilar_updates expr1 expr2 M)
        (generateSubStates (M.worldCardinality - 1) i) with
    | .error e => .error e
    | .ok true => .ok false
    | .ok false => equivalentLoop expr1 expr2 M rest

/-- `equivalent(expr1, expr2, model)` (gsv-relations). -/
def equivalent (expr1 expr2 : Expression) (M : Model) : Except String Bool :=
  equivalentLoop expr1 expr2 M (List.range M.worldCardinality)

/-- Whether an `Except` value is a success. -/
def isOkE {α : Type} : Except String α → Bool
  | .ok _ => true
  | .error _ => false

/-- Sequential state-level updates starting from the ignorant state; the
reachable information states of the data-model lifecycle. -/
def applyUpdates (M : Model) (us : List (String × Nat)) : InformationState :=
  us.foldl (fun s vd => update s vd.1 vd.2) (create M)

/-!
Concrete instances used by the end-to-end scenarios: the model of §8 of the
design (2 worlds, 2 individuals, `P` with extension {⟨e0⟩} at w0 and
{⟨e0⟩, ⟨e1⟩} at w1, no constants), and the possibilities its evaluations
produce.
-/

/-- The two-world, two-individual scenario model; `P` is its only
interpreted predicate and no singular term is interpreted. -/
def M2 : Model :=
  { worldCardinality := 2
    domainCardinality := 2
    termInterpretation := fun _ _ => .error "Model does not interpret any singular term"
    predicateInterpretation := fun pname w =>
      if pname = "P" then (if w = 0 then .ok [[0]] else .ok [[0], [1]])
      else .error ("Model does not interpret predicate " ++ pname) }

/-- The variable term `x`. -/
def xv : Term := { type := .VARIABLE, literal := "x" }

/-- The formula `∃x P(x)`. -/
def exP : Expression := .quantification .EXISTENTIAL xv (.predication "P" [xv])

/-- The formula `Q(x)` with `Q` uninterpreted in `M2`. -/
def qx : Expression := .predication "Q" [xv]

/-- The ignorant possibility over world 0. -/
def iw0 : Possibility := { referentSystem := emptyRS, assignment := [], world := 0 }

/-- The referent system after one introduction of `x`: one peg, bound to
peg 1 (the source's pre-increment allocates pegs from 1). -/
def rs1 : ReferentSystem := { pegs := 1, variablePegAssociation := [("x", 1)] }

/-- Possibility ⟨w0, x ↦ e0⟩ as produced by `update`/`evaluate`. -/
def pE0w0 : Possibility := { referentSystem := rs1, assignment := [(1, 0)], world := 0 }

/-- Possibility ⟨w1, x ↦ e0⟩. -/
def pE0w1 : Possibility := { referentSystem := rs1, assignment := [(1, 0)], world := 1 }

/-- Possibility ⟨w1, x ↦ e1⟩. -/
def pE1w1 : Possibility := { referentSystem := rs1, assignment := [(1, 1)], world := 1 }

/-- A possibility that maps peg 1 to individual 0 over an empty referent
system. -/
def pOnly1 : Possibility := { referentSystem := emptyRS, assignment := [(1, 0)], world := 0 }

/-- A possibility that maps peg 1 to individual 5. -/
def pDiff : Possibility := { referentSystem := emptyRS, assignment := [(1, 5)], world := 0 }

/-- C1: the claim states that two possibilities with the same world but
different per-peg assignments are distinct for set membership: a state could
hold both, insertion would not collapse them, and `contains` would report
membership only for a structurally equal possibility. On the code the set
order compares worlds only, so `pE0w1` and `pE1w1` (same world 1, different
assignment of peg 1) collide: inserting one into a state holding the other
leaves the state unchanged, and the membership test used by disjunction
accepts a possibility that is not structurally present. -/
theorem set_membership_is_world_keyed :
    pE0w1 ≠ pE1w1 ∧
    sinsert pE0w1 [pE1w1] = [pE1w1] ∧
    scontains [pE1w1] pE0w1 = true := by
  refine ⟨by decide, by decide, by decide⟩

/-- C2: the claim expects `evaluate(∃x.P(x), create(M), M)` on the scenario
model to contain three possibilities, ⟨w0, x↦e0⟩, ⟨w1, x↦e0⟩ and
⟨w1, x↦e1⟩. The code returns only two: the d = 1 branch's possibility
⟨w1, x↦e1⟩ has the same world as the already-inserted ⟨w1, x↦e0⟩ and is
dropped by the world-keyed set insertion of the existential's merge loop. -/
theorem existential_update_collapses_same_world :
    evaluate M2 exP (create M2) = .ok [pE0w0, pE0w1] ∧
    [pE0w0, pE0w1].length = 2 ∧
    pE1w1 ∉ [pE0w0, pE0w1] ∧
    variableDenot "x" pE1w1 = .ok 1 := by
  refine ⟨by decide, by decide, by decide, by decide⟩

/-- C3: the claim states that `equivalent(φ1, φ2, M)` is true iff the
updates of φ1 and φ2 are similar on every enumerated sub-state. On the code,
`dissimilar_updates` applies `!` to the `std::expected` returned by
`similar`, testing `has_value()` rather than negating the computed boolean,
so whenever no evaluation fails `equivalent` answers true. Witnessed here:
on the enumerated one-possibility sub-state over w0, `∃x P(x)` updates to a
nonempty state and `¬∃x P(x)` to the empty state — not similar — yet
`equivalent` returns true. -/
theorem equivalent_true_despite_dissimilar_updates :
    evaluate M2 exP [iw0] = .ok [pE0w0] ∧
    evaluate M2 (negate exP) [iw0] = .ok [] ∧
    similarS [pE0w0] [] = .ok false ∧
    [iw0] ∈ generateSubStates (M2.worldCardinality - 1) 1 ∧
    equivalent exP (negate exP) M2 = .ok true := by
  refine ⟨by decide, by decide, by decide, by decide, by decide⟩

/-- C5: the claim states that `extends(p2, p1)` requires every peg mapped in
p1 to be mapped to the same individual by p2, and in particular is false
when p1 maps a peg absent from p2. The code quantifies over p2's assignment
instead (matching neither the claim nor its own doc comment), so a base
possibility's peg that the candidate descendant does not map at all is
simply ignored: here p1 maps peg 1, p2 maps nothing, and `extends` answers
true. -/
theorem extends_ignores_pegs_absent_from_descendant :
    extendsP iw0 pOnly1 = true ∧
    alookup pOnly1.assignment 1 = some 0 ∧
    alookup iw0.assignment 1 = none ∧
    iw0.world = pOnly1.world := by
  refine ⟨by decide, by decide, by decide, by decide⟩

/-- C6: the claim states subsistence is transitive on arbitrary information
states. With the shipped `extends` (which ignores pegs absent from the
descendant) this fails: {⟨w0, peg1↦e0⟩} subsists in {⟨w0, ∅⟩}, which
subsists in {⟨w0, peg1↦e5⟩}, but the first state does not subsist in the
third, because its only possibility disagrees with the only candidate
descendant on peg 1. -/
theorem subsistence_not_transitive :
    subsistsInS [pOnly1] [iw0] = true ∧
    subsistsInS [iw0] [pDiff] = true ∧
    subsistsInS [pOnly1] [pDiff] = false := by
  refine ⟨by decide, by decide, by decide⟩

/-- C7: when the evaluation of a formula on a state fails, the state-level
relations `consistent`, `supports` and their argument-swapped aliases return
the error (re-wrapped once with the formula's printed form, as the source's
`explain_failure` call does); the failure is never turned into the boolean
answer false. -/
theorem relations_propagate_evaluation_errors (expr : Expression) (state : InformationState)
    (M : Model) (err : String) (h : evaluate M expr state = .error err) :
    consistent expr state M = .error (explain_failure (format expr) err) ∧
    supports state expr M = .error (explain_failure (format expr) err) ∧
    allows state expr M = .error (explain_failure (format expr) err) ∧
    isSupportedBy expr state M = .error (explain_failure (format expr) err) := by
  refine ⟨?_, ?_, ?_, ?_⟩ <;> simp [consistent, supports, allows, isSupportedBy, h]

/-- Witness for C7: `Q(x)` with `x` unbound fails on the ignorant state of
`M2`, and all four relations surface that failure as an error result. -/
theorem relations_propagate_evaluation_errors_witness :
    consistent qx (create M2) M2 =
      .error (explain_failure (format qx)
        (explain_failure (format qx) "Referent system does not contain variable x")) ∧
    supports (create M2) qx M2 =
      .error (explain_failure (format qx)
        (explain_failure (format qx) "Referent system does not contain variable x")) ∧
    allows (create M2) qx M2 =
      .error (explain_failure (format qx)
        (explain_failure (format qx) "Referent system does not contain variable x")) ∧
    isSupportedBy qx (create M2) M2 =
      .error (explain_failure (format qx)
        (explain_failure (format qx) "Referent system does not contain variable x")) :=
  relations_propagate_evaluation_errors qx (create M2) M2
    (explain_failure (format qx) "Referent system does not contain variable x") (by decide)

/-- C8 counterexample: the claim states every enclosing evaluator call wraps
an inner failure as "In evaluating formula <enclosing>:\n<inner>", and that
any formula containing an uninterpreted predicate therefore fails with a
full trace. Both parts fail on the code: (1) a conjunction returns its
right conjunct's failure unwrapped, so the error for `(∃x P(x) ⋀ Q(x))`
is exactly the inner `Q(x)` failure and not the prescribed wrapping of it;
(2) `Q(x)` with `Q` uninterpreted evaluates without error on the empty
state, because filtering consults no denotation there. -/
theorem conjunction_rhs_error_not_wrapped :
    evaluate M2 (.binary .CONJUNCTION exP qx) (create M2) =
      .error (explain_failure (format qx) "Model does not interpret predicate Q") ∧
    explain_failure (format qx) "Model does not interpret predicate Q" ≠
      explain_failure (format (.binary .CONJUNCTION exP qx))
        (explain_failure (format qx) "Model does not interpret predicate Q") ∧
    evaluate M2 qx [] = .ok [] := by
  refine ⟨by decide, by decide, by decide⟩

theorem mapExcept_error {α β : Type} (f : α → Except String β) :
    ∀ (l : List α) (e : String), mapExcept f l = .error e → ∃ x ∈ l, f x = .error e := by
  intro l
  induction l with
  | nil =>
    intro e h
    simp [mapExcept] at h
  | cons a t ih =>
    intro e h
    cases hfa : f a with
    | error e1 =>
      simp [mapExcept, hfa] at h
      subst h
      exact ⟨a, by simp, hfa⟩
    | ok b =>
      cases hmt : mapExcept f t with
      | error e1 =>
        simp [mapExcept, hfa, hmt] at h
        subst h
        rcases ih _ hmt with ⟨x, hx, hfx⟩
        exact ⟨x, List.mem_cons.mpr (Or.inr hx), hfx⟩
      | ok bs => simp [mapExcept, hfa, hmt] at h

/-- C8 (amended): each enclosing evaluator call wraps an inner failure
exactly as "In evaluating formula <printed enclosing expression>:\n<inner
message>" — at a unary node for its scope (1), at a conjunction for its
left conjunct (2), at a disjunction for its left conjunct (4), its
hypothetical negated left conjunct (6) and its right conjunct (7), at a
conditional for its antecedent (5) and its consequent (8), and at a
quantifier for each scope evaluation, witnessed on the first domain
individual (9) and by decomposition of every surfacing quantifier error
(10) — with the single exception that a conjunction whose left conjunct
succeeds returns its right conjunct's failure unchanged (3). Consequently
every error surfacing from a non-conjunction formula is exactly that
formula's printed form wrapping some inner message (11), and an error
surfacing from a conjunction either is so wrapped or is the right
conjunct's error verbatim (12). A formula containing an uninterpreted
predicate fails only where evaluation actually applies the predicate:
a predication over an uninterpreted predicate fails on a nonempty state
with the model's error wrapped with the predication's printed form (13),
and succeeds on the empty state (14). -/
theorem error_wrapping :
    (∀ (op : Operator) (scope : Expression) (M : Model) (s : InformationState) (e : String),
      evaluate M scope s = .error e →
      evaluate M (.unary op scope) s = .error (explain_failure (format (.unary op scope)) e)) ∧
    (∀ (lhs rhs : Expression) (M : Model) (s : InformationState) (e : String),
      evaluate M lhs s = .error e →
      evaluate M (.binary .CONJUNCTION lhs rhs) s =
        .error (explain_failure (format (.binary .CONJUNCTION lhs rhs)) e)) ∧
    (∀ (lhs rhs : Expression) (M : Model) (s s1 : InformationState) (e : String),
      evaluate M lhs s = .ok s1 → evaluate M rhs s1 = .error e →
      evaluate M (.binary .CONJUNCTION lhs rhs) s = .error e) ∧
    (∀ (lhs rhs : Expression) (M : Model) (s : InformationState) (e : String),
      evaluate M lhs s = .error e →
      evaluate M (.binary .DISJUNCTION lhs rhs) s =
        .error (explain_failure (format (.binary .DISJUNCTION lhs rhs)) e)) ∧
    (∀ (lhs rhs : Expression) (M : Model) (s : InformationState) (e : String),
      evaluate M lhs s = .error e →
      evaluate M (.binary .CONDITIONAL lhs rhs) s =
        .error (explain_failure (format (.binary .CONDITIONAL lhs rhs)) e)) ∧
    (∀ (lhs rhs : Expression) (M : Model) (s : InformationState) (e : String),
      evaluate M (negate lhs) s = .error e →
      ∃ e0, evaluate M lhs s = .error e0 ∧
        e = explain_failure (format (negate lhs)) e0 ∧
        evaluate M (.binary .DISJUNCTION lhs rhs) s =
          .error (explain_failure (format (.binary .DISJUNCTION lhs rhs)) e0)) ∧
    (∀ (lhs rhs : Expression) (M : Model) (s s1 s2 : InformationState) (e : String),
      evaluate M lhs s = .ok s1 → evaluate M (negate lhs) s = .ok s2 →
      evaluate M rhs s2 = .error e →
      evaluate M (.binary .DISJUNCTION lhs rhs) s =
        .error (explain_failure (format (.binary .DISJUNCTION lhs rhs)) e)) ∧
    (∀ (lhs rhs : Expression) (M : Model) (s s1 : InformationState) (e : String),
      evaluate M lhs s = .ok s1 → evaluate M rhs s1 = .error e →
      evaluate M (.binary .CONDITIONAL lhs rhs) s =
        .error (explain_failure (format (.binary .CONDITIONAL lhs rhs)) e)) ∧
    (∀ (q : Quantifier) (v : Term) (scope : Expression) (M : Model) (s : InformationState)
        (e : String),
      0 < M.domainCardinality →
      evaluate M scope (update s v.literal 0) = .error e →
      evaluate M (.quantification q v scope) s =
        .error (explain_failure (format (.quantification q v scope)) e)) ∧
    (∀ (q : Quantifier) (v : Term) (scope : Expression) (M : Model) (s : InformationState)
        (e : String),
      evaluate M (.quantification q v scope) s = .error e →
      ∃ d, d < M.domainCardinality ∧ ∃ e0,
        evaluate M scope (update s v.literal d) = .error e0 ∧
        e = explain_failure (format (.quantification q v scope)) e0) ∧
    (∀ (M : Model) (e : Expression) (s : InformationState) (msg : String),
      evaluate M e s = .error msg → (∀ l r, e ≠ .binary .CONJUNCTION l r) →
      ∃ rest, msg = explain_failure (format e) rest) ∧
    (∀ (lhs rhs : Expression) (M : Model) (s : InformationState) (msg : String),
      evaluate M (.binary .CONJUNCTION lhs rhs) s = .error msg →
      (∃ rest, msg = explain_failure (format (.binary .CONJUNCTION lhs rhs)) rest) ∨
      (∃ s1, evaluate M lhs s = .ok s1 ∧ evaluate M rhs s1 = .error msg)) ∧
    (∀ (M : Model) (pn : String) (arguments : List Term) (p : Possibility)
        (t : List Possibility) (tuple : List Nat) (em : String),
      mapExcept (fun a => termDenot M a p) arguments = .ok tuple →
      M.predicateInterpretation pn p.world = .error em →
      evaluate M (.predication pn arguments) (p :: t) =
        .error (explain_failure (format (.predication pn arguments)) em)) ∧
    (∀ (M : Model) (pn : String) (arguments : List Term),
      evaluate M (.predication pn arguments) [] = .ok []) := by
  have hneg : ∀ (lhs : Expression) (M : Model) (s : InformationState) (e : String),
      evaluate M (negate lhs) s = .error e →
      ∃ e0, evaluate M lhs s = .error e0 ∧ e = explain_failure (format (negate lhs)) e0 := by
    intro lhs M s e h
    cases hl : evaluate M lhs s with
    | ok u => simp [negate, evaluate, hl] at h
    | error e0 =>
      simp [negate, evaluate, hl] at h
      exact ⟨e0, rfl, h.symm⟩
  have hquant : ∀ (q : Quantifier) (v : Term) (scope : Expression) (M : Model)
      (s : InformationState) (e : String),
      evaluate M (.quantification q v scope) s = .error e →
      ∃ d, d < M.domainCardinality ∧ ∃ e0,
        evaluate M scope (update s v.literal d) = .error e0 ∧
        e = explain_failure (format (.quantification q v scope)) e0 := by
    intro q v scope M s e h
    cases q with
    | EXISTENTIAL =>
      simp only [evaluate] at h
      split at h
      · rename_i e1 heq
        injection h with h
        subst h
        rcases mapExcept_error _ _ _ heq with ⟨d, hd, hfd⟩
        cases hsc : evaluate M scope (update s v.literal d) with
        | ok u => simp [hsc] at hfd
        | error e0 =>
          simp [hsc] at hfd
          exact ⟨d, List.mem_range.mp hd, e0, hsc, hfd.symm⟩
      · exact absurd h (by simp)
    | UNIVERSAL =>
      simp only [evaluate] at h
      split at h
      · rename_i e1 heq
        injection h with h
        subst h
        rcases mapExcept_error _ _ _ heq with ⟨d, hd, hfd⟩
        cases hsc : evaluate M scope (update s v.literal d) with
        | ok u => simp [hsc] at hfd
        | error e0 =>
          simp [hsc] at hfd
          exact ⟨d, List.mem_range.mp hd, e0, hsc, hfd.symm⟩
      · exact absurd h (by simp)
  refine ⟨?_, ?_, ?_, ?_, ?_, ?_, ?_, ?_, ?_, hquant, ?_, ?_, ?_, ?_⟩
  · intro op scope M s e h
    simp [evaluate, h]
  · intro lhs rhs M s e h
    simp [evaluate, h]
  · intro lhs rhs M s s1 e h1 h2
    simp [evaluate, h1, h2]
  · intro lhs rhs M s e h
    simp [evaluate, h]
  · intro lhs rhs M s e h
    simp [evaluate, h]
  · intro lhs rhs M s e h
    rcases hneg lhs M s e h with ⟨e0, hl, he⟩
    exact ⟨e0, hl, he, by simp [evaluate, hl]⟩
  · intro lhs rhs M s s1 s2 e h1 h2 h3
    have hs2 : List.filter (fun p => !subsistsIn p s1) s = s2 := by
      simp [negate, evaluate, h1] at h2
      exact h2
    rw [← hs2] at h3
    simp [evaluate, h1, h3]
  · intro lhs rhs M s s1 e h1 h2
    simp [evaluate, h1, h2]
  · intro q v scope M s e hD h
    obtain ⟨n, hn⟩ : ∃ n, M.domainCardinality = n + 1 := ⟨M.domainCardinality - 1, by omega⟩
    cases q <;>
      simp only [evaluate, hn, List.range_succ_eq_map] <;>
      simp [mapExcept, h]
  · intro M e s msg h hnc
    cases e with
    | unary op scope =>
      cases hsc : evaluate M scope s with
      | error e0 =>
        simp only [evaluate, hsc] at h
        injection h with h
        exact ⟨e0, h.symm⟩
      | ok prej =>
        cases op <;> simp only [evaluate, hsc] at h
        case CONJUNCTION =>
          injection h with h
          exact ⟨"Invalid unary operator", h.symm⟩
        case DISJUNCTION =>
          injection h with h
          exact ⟨"Invalid unary operator", h.symm⟩
        case CONDITIONAL =>
          injection h with h
          exact ⟨"Invalid unary operator", h.symm⟩
        all_goals simp at h
    | binary op lhs rhs =>
      cases op with
      | CONJUNCTION => exact absurd rfl (hnc lhs rhs)
      | DISJUNCTION =>
        cases hl : evaluate M lhs s with
        | error e0 =>
          simp only [evaluate, hl] at h
          injection h with h
          exact ⟨e0, h.symm⟩
        | ok s1 =>
          simp only [evaluate, hl] at h
          split at h
          · rename_i e1 heq
            injection h with h
            exact ⟨e1, h.symm⟩
          · exact absurd h (by simp)
      | CONDITIONAL =>
        cases hl : evaluate M lhs s with
        | error e0 =>
          simp only [evaluate, hl] at h
          injection h with h
          exact ⟨e0, h.symm⟩
        | ok s1 =>
          simp only [evaluate, hl] at h
          split at h
          · rename_i e1 heq
            injection h with h
            exact ⟨e1, h.symm⟩
          · exact absurd h (by simp)
      | NEGATION =>
        cases hl : evaluate M lhs s with
        | error e0 =>
          simp only [evaluate, hl] at h
          injection h with h
          exact ⟨e0, h.symm⟩
        | ok s1 =>
          simp only [evaluate, hl] at h
          injection h with h
          exact ⟨"Invalid operator for binary formula", h.symm⟩
      | EPISTEMIC_NECESSITY =>
        cases hl : evaluate M lhs s with
        | error e0 =>
          simp only [evaluate, hl] at h
          injection h with h
          exact ⟨e0, h.symm⟩
        | ok s1 =>
          simp only [evaluate, hl] at h
          injection h with h
          exact ⟨"Invalid operator for binary formula", h.symm⟩
      | EPISTEMIC_POSSIBILITY =>
        cases hl : evaluate M lhs s with
        | error e0 =>
          simp only [evaluate, hl] at h
          injection h with h
          exact ⟨e0, h.symm⟩
        | ok s1 =>
          simp only [evaluate, hl] at h
          injection h with h
          exact ⟨"Invalid operator for binary formula", h.symm⟩
    | quantification q v scope =>
      rcases hquant q v scope M s msg h with ⟨d, _, e0, _, he⟩
      exact ⟨e0, he⟩
    | identity lhs rhs =>
      cases hf : filterE (assignsSameDenot M lhs rhs) s with
      | error e0 =>
        simp only [evaluate, hf] at h
        injection h with h
        exact ⟨e0, h.symm⟩
      | ok out => simp only [evaluate, hf] at h; simp at h
    | predication pn arguments =>
      cases hf : filterE (tupleInExtension M pn arguments) s with
      | error e0 =>
        simp only [evaluate, hf] at h
        injection h with h
        exact ⟨e0, h.symm⟩
      | ok out => simp only [evaluate, hf] at h; simp at h
  · intro lhs rhs M s msg h
    cases hl : evaluate M lhs s with
    | error e0 =>
      simp only [evaluate, hl] at h
      injection h with h
      exact Or.inl ⟨e0, h.symm⟩
    | ok s1 =>
      simp only [evaluate, hl] at h
      exact Or.inr ⟨s1, rfl, h⟩
  · intro M pn arguments p t tuple em hargs hpred
    have hf : tupleInExtension M pn arguments p = .error em := by
      simp [tupleInExtension, hargs, hpred]
    simp [evaluate, filterE, hf]
  · intro M pn arguments
    rfl

/-- Witness for C8: a negation wrapping the failing `Q(x)` produces exactly
the doubly-wrapped trace. -/
theorem error_wrapping_witness :
    evaluate M2 (.unary .NEGATION qx) (create M2) =
      .error (explain_failure (format (.unary .NEGATION qx))
        (explain_failure (format qx) "Referent system does not contain variable x")) :=
  error_wrapping.1 .NEGATION qx M2 (create M2)
    (explain_failure (format qx) "Referent system does not contain variable x") (by decide)

/-- C9: on an identity node the evaluator resolves each side by that side's
own kind — `variableDenot` for a variable, the model's
`termInterpretation` at the possibility's world for a constant (that is
`termDenot`) — and, when every resolution succeeds, keeps exactly the
possibilities on which the two resolved individuals coincide. -/
theorem identity_resolves_each_side_by_kind (t1 t2 : Term) (M : Model) (s : InformationState)
    (h : ∀ p ∈ s, isOkE (termDenot M t1 p) = true ∧ isOkE (termDenot M t2 p) = true) :
    evaluate M (.identity t1 t2) s =
      .ok (s.filter (fun p => decide (termDenot M t1 p = termDenot M t2 p))) := by
  have key : ∀ (l : List Possibility),
      (∀ p ∈ l, isOkE (termDenot M t1 p) = true ∧ isOkE (termDenot M t2 p) = true) →
      filterE (assignsSameDenot M t1 t2) l =
        .ok (l.filter (fun p => decide (termDenot M t1 p = termDenot M t2 p))) := by
    intro l
    induction l with
    | nil => intro _; rfl
    | cons p t ih =>
      intro hl
      obtain ⟨h1, h2⟩ := hl p (by simp)
      obtain ⟨v1, hv1⟩ : ∃ v, termDenot M t1 p = .ok v := by
        cases hd : termDenot M t1 p with
        | error e => rw [hd] at h1; simp [isOkE] at h1
        | ok v => exact ⟨v, rfl⟩
      obtain ⟨v2, hv2⟩ : ∃ v, termDenot M t2 p = .ok v := by
        cases hd : termDenot M t2 p with
        | error e => rw [hd] at h2; simp [isOkE] at h2
        | ok v => exact ⟨v, rfl⟩
      have ht : filterE (assignsSameDenot M t1 t2) t =
          .ok (t.filter (fun p => decide (termDenot M t1 p = termDenot M t2 p))) :=
        ih (fun q hq => hl q (by simp [hq]))
      simp [filterE, assignsSameDenot, hv1, hv2, ht, List.filter]
      by_cases hv : v1 = v2 <;> simp [hv]
  rw [show evaluate M (.identity t1 t2) s =
      (match filterE (assignsSameDenot M t1 t2) s with
       | .error e => .error (explain_failure (format (.identity t1 t2)) e)
       | .ok out => .ok out) from rfl, key s h]

/-- A model with two interpreted constants: `a` denotes e0 at every world,
`b` denotes e0 at w0 and e1 at w1. -/
def M3 : Model :=
  { worldCardinality := 2
    domainCardinality := 2
    termInterpretation := fun t w =>
      if t = "a" then .ok 0
      else if t = "b" then (if w = 0 then .ok 0 else .ok 1)
      else .error ("Model does not interpret term " ++ t)
    predicateInterpretation := fun pname _ =>
      .error ("Model does not interpret predicate " ++ pname) }

/-- The constant term `a`. -/
def ca : Term := { type := .CONSTANT, literal := "a" }

/-- The constant term `b`. -/
def cb : Term := { type := .CONSTANT, literal := "b" }

/-- Witness for C9: `a = b` on the ignorant state of `M3` keeps exactly the
worlds where the two constants denote the same individual. -/
theorem identity_resolves_each_side_by_kind_witness :
    evaluate M3 (.identity ca cb) (create M3) =
      .ok ((create M3).filter
        (fun p => decide (termDenot M3 ca p = termDenot M3 cb p))) :=
  identity_resolves_each_side_by_kind ca cb M3 (create M3) (by decide)

theorem alookup_ainsert_self {α β : Type} [DecidableEq α] (k : α) (v : β) (m : List (α × β)) :
    alookup (ainsert k v m) k = some v := by
  simp [ainsert, alookup]

theorem mem_ainsert {α β : Type} [DecidableEq α] {kv : α × β} {k : α} {v : β}
    {m : List (α × β)} (h : kv ∈ ainsert k v m) : kv = (k, v) ∨ kv ∈ m := by
  simp only [ainsert] at h
  rcases List.mem_cons.mp h with h1 | h1
  · exact Or.inl h1
  · exact Or.inr (List.mem_filter.mp h1).1

theorem mem_mergeBindings {kv : String × Nat} :
    ∀ (add base : List (String × Nat)), kv ∈ mergeBindings base add → kv ∈ base ∨ kv ∈ add := by
  intro add
  induction add with
  | nil => intro base h; exact Or.inl h
  | cons a t ih =>
    intro base h
    rcases ih (ainsert a.1 a.2 base) h with h1 | h1
    · rcases mem_ainsert h1 with h2 | h2
      · right
        rw [Prod.mk.eta] at h2
        exact List.mem_cons.mpr (Or.inl h2)
      · exact Or.inl h2
    · exact Or.inr (List.mem_cons.mpr (Or.inr h1))

theorem mem_sinsert (q p : Possibility) (s : InformationState) :
    q ∈ sinsert p s → q = p ∨ q ∈ s := by
  induction s with
  | nil =>
    intro h
    simp [sinsert] at h
    exact Or.inl h
  | cons a t ih =>
    intro h
    simp only [sinsert] at h
    by_cases h1 : p.world < a.world
    · rw [if_pos h1] at h
      rcases List.mem_cons.mp h with h2 | h2
      · exact Or.inl h2
      · exact Or.inr h2
    · rw [if_neg h1] at h
      by_cases h2 : a.world < p.world
      · rw [if_pos h2] at h
        rcases List.mem_cons.mp h with h3 | h3
        · exact Or.inr (List.mem_cons.mpr (Or.inl h3))
        · rcases ih h3 with h4 | h4
          · exact Or.inl h4
          · exact Or.inr (List.mem_cons.mpr (Or.inr h4))
      · rw [if_neg h2] at h
        exact Or.inr h

theorem mem_foldl_sinsert (g : Possibility → Possibility) (l : List Possibility) :
    ∀ (init : InformationState) (q : Possibility),
      q ∈ l.foldl (fun out x => sinsert (g x) out) init → q ∈ init ∨ ∃ x ∈ l, q = g x := by
  induction l with
  | nil => intro init q h; exact Or.inl h
  | cons a t ih =>
    intro init q h
    rcases ih (sinsert (g a) init) q h with h1 | h1
    · rcases mem_sinsert q (g a) init h1 with h2 | h2
      · exact Or.inr ⟨a, by simp, h2⟩
      · exact Or.inl h2
    · rcases h1 with ⟨x, hx, hq⟩
      exact Or.inr ⟨x, List.mem_cons.mpr (Or.inr hx), hq⟩

/-- Invariant of the `r_star` accumulation inside `update`: processing
possibilities whose referent systems have peg count n and bindings inside
[1, n] keeps every accumulated binding inside [1, n + 1], and the peg count
ends at n + 1 once at least one possibility has been processed. -/
theorem update_fold_rs (n : Nat) (v : String) (d : Nat) (l : List Possibility) :
    ∀ (acc : ReferentSystem × List Possibility),
      (∀ p ∈ l, p.referentSystem.pegs = n ∧
        ∀ kv ∈ p.referentSystem.variablePegAssociation, 1 ≤ kv.2 ∧ kv.2 ≤ n) →
      (∀ kv ∈ acc.1.variablePegAssociation, 1 ≤ kv.2 ∧ kv.2 ≤ n + 1) →
      (∀ kv ∈ (l.foldl (updateStep v d) acc).1.variablePegAssociation,
        1 ≤ kv.2 ∧ kv.2 ≤ n + 1) ∧
      (acc.1.pegs = n + 1 → (l.foldl (updateStep v d) acc).1.pegs = n + 1) ∧
      (l ≠ [] → (l.foldl (updateStep v d) acc).1.pegs = n + 1) := by
  induction l with
  | nil =>
    intro acc _ hacc
    exact ⟨hacc, fun h => h, fun h => absurd rfl h⟩
  | cons a t ih =>
    intro acc hl hacc
    have ha := hl a (by simp)
    have hpegs1 : (updateStep v d acc a).1.pegs = n + 1 := by
      simp [updateStep, Possibility.update, ha.1]
    have hb1 : ∀ kv ∈ (updateStep v d acc a).1.variablePegAssociation,
        1 ≤ kv.2 ∧ kv.2 ≤ n + 1 := by
      intro kv hkv
      simp only [updateStep, Possibility.update] at hkv
      rcases mem_ainsert hkv with h1 | h1
      · rw [h1]
        simp [ha.1]
      · rcases mem_mergeBindings _ _ h1 with h2 | h2
        · exact hacc kv h2
        · have h3 := ha.2 kv h2
          exact ⟨h3.1, Nat.le_trans h3.2 (Nat.le_succ n)⟩
    have hrec := ih (updateStep v d acc a)
      (fun p hp => hl p (List.mem_cons.mpr (Or.inr hp))) hb1
    exact ⟨hrec.1, fun _ => hrec.2.1 hpegs1, fun _ => hrec.2.1 hpegs1⟩

/-- Invariant transfer through one state-level `update`: referent systems
with peg count n and bindings inside [1, n] become referent systems with
peg count n + 1 and bindings inside [1, n + 1]. -/
theorem update_invariant (n : Nat) (s : InformationState) (v : String) (d : Nat)
    (hs : ∀ p ∈ s, p.referentSystem.pegs = n ∧
      ∀ kv ∈ p.referentSystem.variablePegAssociation, 1 ≤ kv.2 ∧ kv.2 ≤ n) :
    ∀ q ∈ update s v d, q.referentSystem.pegs = n + 1 ∧
      ∀ kv ∈ q.referentSystem.variablePegAssociation, 1 ≤ kv.2 ∧ kv.2 ≤ n + 1 := by
  intro q hq
  cases s with
  | nil => simp [update] at hq
  | cons a t =>
    simp only [update] at hq
    have hfold := update_fold_rs n v d (a :: t) (emptyRS, []) hs
      (by intro kv hkv; simp [emptyRS] at hkv)
    rcases mem_foldl_sinsert
        (fun q1 => { q1 with referentSystem := ((a :: t).foldl (updateStep v d) (emptyRS, [])).1 })
        (((a :: t).foldl (updateStep v d) (emptyRS, [])).2) [] q hq with h1 | h1
    · simp at h1
    · rcases h1 with ⟨x, _, hx⟩
      rw [hx]
      exact ⟨hfold.2.2 (by simp), hfold.1⟩

theorem create_invariant (M : Model) :
    ∀ p ∈ create M, p.referentSystem.pegs = 0 ∧
      ∀ kv ∈ p.referentSystem.variablePegAssociation, 1 ≤ kv.2 ∧ kv.2 ≤ 0 := by
  intro p hp
  simp [create] at hp
  obtain ⟨w, _, rfl⟩ := hp
  simp [emptyRS]

theorem applyUpdates_invariant_aux (us : List (String × Nat)) :
    ∀ (s : InformationState) (n : Nat),
      (∀ p ∈ s, p.referentSystem.pegs = n ∧
        ∀ kv ∈ p.referentSystem.variablePegAssociation, 1 ≤ kv.2 ∧ kv.2 ≤ n) →
      ∀ q ∈ us.foldl (fun st vd => update st vd.1 vd.2) s,
        q.referentSystem.pegs = n + us.length ∧
        ∀ kv ∈ q.referentSystem.variablePegAssociation, 1 ≤ kv.2 ∧ kv.2 ≤ n + us.length := by
  induction us with
  | nil =>
    intro s n hs q hq
    simpa using hs q hq
  | cons u t ih =>
    intro s n hs q hq
    have h2 := ih (update s u.1 u.2) (n + 1) (update_invariant n s u.1 u.2 hs) q hq
    have harith : n + 1 + t.length = n + (u :: t).length := by
      simp [List.length_cons]
      omega
    rw [harith] at h2
    exact h2

/-- C4 counterexample: the claim states that updating a possibility whose
referent system has peg count 0 binds the variable to the fresh peg 0 (the
old peg count). The code pre-increments, so the variable is bound to peg 1,
which also falls outside the claimed interval [0, pegCount) = [0, 1). -/
theorem update_peg_is_not_old_pegcount :
    (Possibility.update iw0 "x" 0).referentSystem.pegs = 1 ∧
    alookup (Possibility.update iw0 "x" 0).referentSystem.variablePegAssociation "x" = some 1 ∧
    iw0.referentSystem.pegs = 0 ∧
    (1 : Nat) ≠ 0 := by
  refine ⟨by decide, by decide, by decide, by decide⟩

/-- C4 (amended): updating a possibility whose referent system has peg
count n binds the variable to the fresh peg n + 1 and leaves the peg count
at n + 1; consequently, in every information state reachable from
`create` by a sequence of updates, the peg count equals the number of
updates performed and every peg stored in the bindings lies in
[1, pegCount] — pegs are allocated 1-based, [1, pegCount] being exactly
the pegs handed out so far. -/
theorem pegs_one_based :
    (∀ (p : Possibility) (v : String) (d : Nat),
      (Possibility.update p v d).referentSystem.pegs = p.referentSystem.pegs + 1 ∧
      alookup (Possibility.update p v d).referentSystem.variablePegAssociation v =
        some (p.referentSystem.pegs + 1)) ∧
    (∀ (M : Model) (us : List (String × Nat)) (p : Possibility),
      p ∈ applyUpdates M us →
      p.referentSystem.pegs = us.length ∧
      ∀ kv ∈ p.referentSystem.variablePegAssociation,
        1 ≤ kv.2 ∧ kv.2 ≤ p.referentSystem.pegs) := by
  constructor
  · intro p v d
    exact ⟨rfl, by simp [Possibility.update, alookup_ainsert_self]⟩
  · intro M us p hp
    have h := applyUpdates_invariant_aux us (create M) 0 (create_invariant M) p hp
    rw [Nat.zero_add] at h
    exact ⟨h.1, fun kv hkv => by
      have := h.2 kv hkv
      rw [h.1]
      exact this⟩

/-- Witness for C4: after one update of the ignorant state of `M2`, the
possibility over w0 has peg count 1 and its sole binding peg 1 lies in
[1, 1]. -/
theorem pegs_one_based_witness :
    pE0w0.referentSystem.pegs = [("x", (0 : Nat))].length ∧
    ∀ kv ∈ pE0w0.referentSystem.variablePegAssociation,
      1 ≤ kv.2 ∧ kv.2 ≤ pE0w0.referentSystem.pegs :=
  pegs_one_based.2 M2 [("x", 0)] pE0w0 (by decide)

theorem update_nil (v : String) (d : Nat) : update [] v d = [] := rfl

theorem mem_of_mapExcept_ok {α β : Type} (f : α → Except String β) :
    ∀ (l : List α) (ys : List β), mapExcept f l = .ok ys → ∀ y ∈ ys, ∃ x ∈ l, f x = .ok y := by
  intro l
  induction l with
  | nil =>
    intro ys h y hy
    simp [mapExcept] at h
    subst h
    simp at hy
  | cons a t ih =>
    intro ys h y hy
    cases hfa : f a with
    | error e1 => simp [mapExcept, hfa] at h
    | ok b =>
      cases hmt : mapExcept f t with
      | error e1 => simp [mapExcept, hfa, hmt] at h
      | ok bs =>
        simp [mapExcept, hfa, hmt] at h
        subst h
        rcases List.mem_cons.mp hy with h1 | h1
        · exact ⟨a, by simp, by rw [h1]; exact hfa⟩
        · rcases ih bs hmt y h1 with ⟨x, hx, hfx⟩
          exact ⟨x, List.mem_cons.mpr (Or.inr hx), hfx⟩

theorem foldl_union_of_nil :
    ∀ (l : List InformationState) (init : InformationState),
      (∀ sv ∈ l, sv = []) →
      l.foldl (fun out sv => sv.foldl (fun o p => sinsert p o) out) init = init := by
  intro l
  induction l with
  | nil => intro init _; rfl
  | cons a t ih =>
    intro init hl
    have ha : a = [] := hl a (by simp)
    subst ha
    exact ih init (fun sv hsv => hl sv (List.mem_cons.mpr (Or.inr hsv)))

/-- Every update of the empty information state that succeeds returns the
empty information state: each evaluator case filters, unions or sequences
what the empty set provides. -/
theorem evaluate_nil (M : Model) (e : Expression) :
    ∀ (u : InformationState), evaluate M e [] = .ok u → u = [] := by
  induction e with
  | unary op scope ih =>
    intro u h
    cases hs : evaluate M scope [] with
    | error e1 => simp [evaluate, hs] at h
    | ok prej =>
      cases op <;> simp [evaluate, hs] at h <;> (first | exact h.symm | exact h)
  | binary op lhs rhs ihl ihr =>
    intro u h
    cases op with
    | CONJUNCTION =>
      cases hl : evaluate M lhs [] with
      | error e1 => simp [evaluate, hl] at h
      | ok s1 =>
        have hs1 : s1 = [] := ihl s1 hl
        subst hs1
        simp only [evaluate, hl] at h
        exact ihr u h
    | DISJUNCTION =>
      cases hl : evaluate M lhs [] with
      | error e1 => simp [evaluate, hl] at h
      | ok s1 =>
        simp only [evaluate, hl, List.filter_nil] at h
        cases hr : evaluate M rhs [] with
        | error e1 => simp [hr] at h
        | ok s2 =>
          simp [hr] at h
          exact h
    | CONDITIONAL =>
      cases hl : evaluate M lhs [] with
      | error e1 => simp [evaluate, hl] at h
      | ok s1 =>
        simp only [evaluate, hl] at h
        cases hr : evaluate M rhs s1 with
        | error e1 => simp [hr] at h
        | ok s2 =>
          simp [hr] at h
          exact h
    | NEGATION =>
      cases hl : evaluate M lhs [] with
      | error e1 => simp [evaluate, hl] at h
      | ok s1 => simp [evaluate, hl] at h
    | EPISTEMIC_NECESSITY =>
      cases hl : evaluate M lhs [] with
      | error e1 => simp [evaluate, hl] at h
      | ok s1 => simp [evaluate, hl] at h
    | EPISTEMIC_POSSIBILITY =>
      cases hl : evaluate M lhs [] with
      | error e1 => simp [evaluate, hl] at h
      | ok s1 => simp [evaluate, hl] at h
  | quantification q v scope ih =>
    intro u h
    cases q with
    | EXISTENTIAL =>
      simp only [evaluate] at h
      split at h
      · exact absurd h (by simp)
      · rename_i variants heq
        have hvar : ∀ sv ∈ variants, sv = [] := by
          intro sv hsv
          rcases mem_of_mapExcept_ok _ _ _ heq sv hsv with ⟨i, _, hfi⟩
          rw [update_nil] at hfi
          cases hsc : evaluate M scope [] with
          | error e1 => rw [hsc] at hfi; simp at hfi
          | ok s1 =>
            rw [hsc] at hfi
            simp at hfi
            rw [← hfi]
            exact ih s1 hsc
        rw [foldl_union_of_nil variants [] hvar] at h
        cases h
        rfl
    | UNIVERSAL =>
      simp only [evaluate] at h
      split at h
      · exact absurd h (by simp)
      · rename_i variants heq
        simp only [List.filter_nil] at h
        cases h
        rfl
  | identity lhs rhs =>
    intro u h
    simp [evaluate, filterE] at h
    exact h
  | predication p arguments =>
    intro u h
    simp [evaluate, filterE] at h
    exact h

/-- C10: for every model with at least one world and every expression whose
evaluation succeeds on the empty state, the model-level relations
`consistent(expr, model)` and `coherent(expr, model)` return false: their
cardinality loop starts at k = 0, `generateSubStates` yields only the empty
sub-state there, updating the empty state yields the empty state, so the
empty state neither is consistent with the formula nor counts as a
nonempty supporting state, and the existential search at cardinality 0
fails. -/
theorem model_level_relations_false (e : Expression) (M : Model)
    (hW : 1 ≤ M.worldCardinality) (he : isOkE (evaluate M e []) = true) :
    consistentModel e M = .ok false ∧ coherent e M = .ok false := by
  obtain ⟨u, hu⟩ : ∃ u, evaluate M e [] = .ok u := by
    cases h : evaluate M e [] with
    | error e1 => rw [h] at he; simp [isOkE] at he
    | ok u => exact ⟨u, rfl⟩
  have hu0 : u = [] := evaluate_nil M e u hu
  subst hu0
  obtain ⟨n, hn⟩ : ∃ n, M.worldCardinality = n + 1 := ⟨M.worldCardinality - 1, by omega⟩
  have hrange : List.range M.worldCardinality = 0 :: List.map Nat.succ (List.range n) := by
    rw [hn, List.range_succ_eq_map]
  have hg : generateSubStates (M.worldCardinality - 1) 0 = [[]] := by
    simp [generateSubStates]
  have hcons : consistent e ([] : InformationState) M = .ok false := by
    simp [consistent, hu]
  have hsupp : supports ([] : InformationState) e M = .ok true := by
    simp [supports, hu, subsistsInS]
  constructor
  · rw [consistentModel, hrange]
    simp only [consistentModelLoop, hg, anyThrow, hcons]
  · rw [coherent, hrange]
    simp only [coherentLoop, hg, anyThrow, hsupp]
    simp

/-- Witness for C10: on the scenario model, `P(x)` evaluates successfully on
the empty state, yet both model-level relations come back false. -/
theorem model_level_relations_false_witness :
    consistentModel (.predication "P" [xv]) M2 = .ok false ∧
    coherent (.predication "P" [xv]) M2 = .ok false :=
  model_level_relations_false (.predication "P" [xv]) M2 (by decide) (by decide)

end GSV
